import Mathlib

set_option maxRecDepth 20000

/-!
Verification of the prediction-market simulation (`src/prediction/model.py`).

The Python code works on a price grid of `0.01` increments: every bid, ask
and (clamped) belief is a whole number of hundredths, and every update moves
a quote by exactly `0.01` or snaps it to a grid bound.  The embedding
therefore represents prices exactly as integers counting hundredths
(`1 ↔ 0.01`, `100 ↔ 1.00`); the initial belief supplied to the constructor
remains an arbitrary rational and is rounded onto the grid exactly as
`round(p, 2)` does.  This is the exact-decimal reading of the float
arithmetic in the source.

The two `OrderedDict` order books are modelled as association lists in
insertion order: updating an existing key rewrites its value in place,
inserting a new key appends at the tail, `popitem` removes the tail entry,
and `sorted(..., key=itemgetter(1))` is a stable sort on values (modelled by
a stable insertion sort).  Python's `round(p, 2)` is modelled as rounding
`100 * p` to the nearest integer (Python rounds exact ties to even; the
round-half-up reading used here agrees with it everywhere except at exact
half-grid ties, on which no property below depends).
-/

namespace PredictionMarkets

/-- An order book: agent id paired with a quoted price, in insertion order. -/
abbrev Book := List (Nat × ℤ)

/-- Keys (agent ids) of a book, in order. -/
def keys (d : Book) : List Nat := d.map Prod.fst

/-- `OrderedDict.__setitem__`: rewrite the value in place if the key is
present, otherwise append the pair at the tail. -/
def odSet (d : Book) (k : Nat) (v : ℤ) : Book :=
  if d.any (fun p => p.1 = k) then
    d.map (fun p => if p.1 = k then (k, v) else p)
  else d ++ [(k, v)]

/-- Stable ascending insertion by quoted price: the new entry goes after
every entry with a strictly smaller price and before the rest, so entries
with equal prices keep their original relative order. -/
def insertAsc (x : Nat × ℤ) : Book → Book
  | [] => [x]
  | y :: ys => if y.2 < x.2 then y :: insertAsc x ys else x :: y :: ys

/-- `sorted(items, key=itemgetter(1), reverse=False)`: stable sort,
ascending by price. -/
def sortAsc : Book → Book
  | [] => []
  | x :: xs => insertAsc x (sortAsc xs)

/-- Stable descending insertion by quoted price. -/
def insertDesc (x : Nat × ℤ) : Book → Book
  | [] => [x]
  | y :: ys => if x.2 < y.2 then y :: insertDesc x ys else x :: y :: ys

/-- `sorted(items, key=itemgetter(1), reverse=True)`: stable sort,
descending by price. -/
def sortDesc : Book → Book
  | [] => []
  | x :: xs => insertDesc x (sortDesc xs)

/-- The mutable state of a `PredictionAgent`: fixed belief `prob`, current
`bid` and current `ask`, all in hundredths. -/
structure AgentSt where
  prob : ℤ
  bid : ℤ
  ask : ℤ
deriving DecidableEq

/-- The state of a `PredictionMarketModel`: the agents (agent `i` has
`unique_id` `i`), the two order books, and the per-step volume counter. -/
structure MState where
  agents : List AgentSt
  bidders : Book
  askers : Book
  volume : ℕ
deriving DecidableEq

/-- Agent lookup by `unique_id` (total, with an irrelevant default used
only outside the population range). -/
def agentAt (m : MState) (i : Nat) : AgentSt := m.agents.getD i ⟨1, 0, 100⟩

/-- `PredictionAgent.__init__` on the belief: `p = round(p, 2)` puts the
belief on the hundredths grid, then `p >= 1` becomes `0.99` and `p <= 0`
becomes `0.01`. -/
def clampProb (p : ℚ) : ℤ :=
  let n : ℤ := round (100 * p)
  if 100 ≤ n then 99 else if n ≤ 0 then 1 else n

/-- `PredictionMarketModel.__init__` restricted to its core: one agent per
supplied belief, each starting with `bid = 0`, `ask = 1` and appending its
entries to both books in id order; volume starts at `0`. -/
def mkMarket (ps : List ℚ) : MState :=
  { agents := ps.map (fun p => { prob := clampProb p, bid := 0, ask := 100 }),
    bidders := (List.range ps.length).map (fun i => (i, (0 : ℤ))),
    askers := (List.range ps.length).map (fun i => (i, (100 : ℤ))),
    volume := 0 }

/-- `PredictionAgent.update_bid`: bounds `min_bid = 0`,
`max_bid = prob - 0.01`; raise by `0.01` snapping to `max_bid`, or lower by
`0.01` snapping to `min_bid`.  The `lowest_ask` argument is unused by the
source body. -/
def update_bid (a : AgentSt) (lowest_ask : ℤ) (increase_bid : Bool) : ℤ :=
  let min_bid : ℤ := 0
  let max_bid : ℤ := a.prob - 1
  if increase_bid then
    if max_bid ≤ a.bid + 1 then max_bid else a.bid + 1
  else
    if a.bid - 1 < min_bid then min_bid else a.bid - 1

/-- `PredictionAgent.update_ask`: bounds `max_ask = 1`,
`min_ask = prob + 0.01`; lower by `0.01` snapping to `min_ask`, or raise by
`0.01` snapping to `max_ask`.  The `highest_bid` argument is unused by the
source body. -/
def update_ask (a : AgentSt) (highest_bid : ℤ) (decrease_ask : Bool) : ℤ :=
  let max_ask : ℤ := 100
  let min_ask : ℤ := a.prob + 1
  if decrease_ask then
    if a.ask - 1 ≤ min_ask then min_ask else a.ask - 1
  else
    if max_ask < a.ask + 1 then max_ask else a.ask + 1

/-- `get_highest_bid`: if the bidders book is nonempty, pop the tail entry,
reinsert it, and return its price; otherwise return `np.nan` (modelled as
`none`).  The possibly mutated model is returned alongside. -/
def get_highest_bid (m : MState) : Option ℤ × MState :=
  match m.bidders.getLast? with
  | none => (none, m)
  | some e => (some e.2, { m with bidders := odSet m.bidders.dropLast e.1 e.2 })

/-- `get_lowest_ask`: mirror of `get_highest_bid` on the askers book. -/
def get_lowest_ask (m : MState) : Option ℤ × MState :=
  match m.askers.getLast? with
  | none => (none, m)
  | some e => (some e.2, { m with askers := odSet m.askers.dropLast e.1 e.2 })

/-- `PredictionAgent.place_bid`: store the new bid on the agent, upsert its
bidders entry, and stably re-sort the bidders book ascending by price. -/
def place_bid (i : Nat) (b : ℤ) (m : MState) : MState :=
  let m' := { m with agents := m.agents.set i { agentAt m i with bid := b } }
  { m' with bidders := sortAsc (odSet m'.bidders i b) }

/-- `PredictionAgent.place_ask`: store the new ask on the agent, upsert its
askers entry, and stably re-sort the askers book descending by price. -/
def place_ask (i : Nat) (a : ℤ) (m : MState) : MState :=
  let m' := { m with agents := m.agents.set i { agentAt m i with ask := a } }
  { m' with askers := sortDesc (odSet m'.askers i a) }

/-- `PredictionAgent.buy`, with every removal that Python could raise on
made explicit: the read of an absent best ask and the unguarded `popitem`
on the askers book both return `none` instead of raising. -/
def buyChecked (i : Nat) (m : MState) : Option MState :=
  if 0 < m.askers.length then
    let r := get_lowest_ask m
    match r.1 with
    | none => none
    | some lowest =>
      let m1 := r.2
      let a := agentAt m1 i
      if lowest ≤ a.bid then
        match m1.askers.getLast? with
        | none => none
        | some _ =>
          let m2 := { m1 with askers := m1.askers.dropLast }
          let m3 := place_bid i (update_bid a lowest false) m2
          some { m3 with volume := m3.volume + 1 }
      else some (place_bid i (update_bid a lowest true) m1)
  else some m

/-- `PredictionAgent.sell`, with the failure branches made explicit as in
`buyChecked`. -/
def sellChecked (i : Nat) (m : MState) : Option MState :=
  if 0 < m.bidders.length then
    let r := get_highest_bid m
    match r.1 with
    | none => none
    | some highest =>
      let m1 := r.2
      let a := agentAt m1 i
      if a.ask ≤ highest then
        match m1.bidders.getLast? with
        | none => none
        | some _ =>
          let m2 := { m1 with bidders := m1.bidders.dropLast }
          let m3 := place_ask i (update_ask a highest false) m2
          some { m3 with volume := m3.volume + 1 }
      else some (place_ask i (update_ask a highest true) m1)
  else some m

/-- `PredictionAgent.buy` as the total function the simulation runs. -/
def buy (i : Nat) (m : MState) : MState := (buyChecked i m).getD m

/-- `PredictionAgent.sell` as the total function the simulation runs. -/
def sell (i : Nat) (m : MState) : MState := (sellChecked i m).getD m

/-- `PredictionAgent.step`: a buy attempt then a sell attempt. -/
def agentStep (i : Nat) (m : MState) : MState := sell i (buy i m)

/-- `PredictionMarketModel.step`: reset the volume counter, then visit the
agents once each in the given order (the `RandomActivation` schedule is a
fresh permutation of the ids; it is passed here as a parameter). -/
def step (order : List Nat) (m : MState) : MState :=
  order.foldl (fun s i => agentStep i s) { m with volume := 0 }

/-- `PredictionMarketModel.run_model`: one `step` per supplied order. -/
def runSteps (orders : List (List Nat)) (m : MState) : MState :=
  orders.foldl (fun s o => step o s) m

/-- Per-step volumes along a run: the volume counter read after each step,
as the data collector reports it. -/
def volTrace (orders : List (List Nat)) (m : MState) : List ℕ :=
  (orders.foldl (fun (p : MState × List ℕ) o =>
    let s := step o p.1
    (s, p.2 ++ [s.volume])) (m, [])).2

/-- Ordered pairs of distinct agents whose quotes cross: `(i, j)` with
agent `i`'s bid at or above agent `j`'s ask. -/
def matchPairs (m : MState) : List (Nat × Nat) :=
  (List.range m.agents.length).flatMap (fun i =>
    (List.range m.agents.length).filterMap (fun j =>
      if i ≠ j ∧ (agentAt m j).ask ≤ (agentAt m i).bid then some (i, j)
      else none))

/-- Increment the volume counter (the trade bookkeeping step). -/
def bumpVolume (m : MState) : MState := { m with volume := m.volume + 1 }

/-- Remove the tail entry of the askers book (`askers.popitem()`). -/
def dropAskTail (m : MState) : MState := { m with askers := m.askers.dropLast }

/-- Remove the tail entry of the bidders book (`bidders.popitem()`). -/
def dropBidTail (m : MState) : MState := { m with bidders := m.bidders.dropLast }

/-- One agent visit in the checked semantics: buy then sell, with explicit
failure propagation. -/
def agentStepChecked (i : Nat) (m : MState) : Option MState :=
  (buyChecked i m).bind (sellChecked i)

/-- `PredictionMarketModel.step` in the checked semantics. -/
def stepChecked (order : List Nat) (m : MState) : Option MState :=
  order.foldlM (fun s i => agentStepChecked i s) { m with volume := 0 }

/-- The bidders book is in canonical order: ascending by price. -/
def SortedAsc (l : Book) : Prop := l.Pairwise (fun p q => p.2 ≤ q.2)

/-- The askers book is in canonical order: descending by price. -/
def SortedDesc (l : Book) : Prop := l.Pairwise (fun p q => q.2 ≤ p.2)

/-- Dictionary well-formedness of a book: no duplicate agent ids. -/
def NodupKeys (l : Book) : Prop := (keys l).Nodup

/-- Both books canonically ordered and duplicate-free. -/
def BookInv (m : MState) : Prop :=
  SortedAsc m.bidders ∧ SortedDesc m.askers ∧
  NodupKeys m.bidders ∧ NodupKeys m.askers

/-- The quote-range invariant of one agent (§3 of the spec, in
hundredths): `0 ≤ bid ≤ prob - 0.01` and `prob + 0.01 ≤ ask ≤ 1`. -/
def AgentInv (a : AgentSt) : Prop :=
  0 ≤ a.bid ∧ a.bid ≤ a.prob - 1 ∧ a.prob + 1 ≤ a.ask ∧ a.ask ≤ 100

/-- The quote-range invariant for every agent of the market. -/
def AgentsInv (m : MState) : Prop := ∀ a ∈ m.agents, AgentInv a

/-- The market states reachable by the simulation: a freshly constructed
market, followed by any sequence of buy attempts, sell attempts and
volume resets (a `step` is a volume reset followed by buys and sells, so
every state entered during or between steps is of this shape). -/
inductive Reach : MState → Prop where
  | init (ps : List ℚ) : Reach (mkMarket ps)
  | rbuy (i : Nat) {m : MState} : Reach m → Reach (buy i m)
  | rsell (i : Nat) {m : MState} : Reach m → Reach (sell i m)
  | rreset {m : MState} : Reach m → Reach { m with volume := 0 }

/-- The two-agent market of the disjoint-beliefs scenario
(beliefs `0.90` and `0.10`), written out on the hundredths grid. -/
def mkt2 : MState :=
  { agents := [⟨90, 0, 100⟩, ⟨10, 0, 100⟩],
    bidders := [(0, 0), (1, 0)],
    askers := [(0, 100), (1, 100)],
    volume := 0 }

/-- A three-agent market (beliefs `0.90`, `0.50`, `0.10`), written out on
the hundredths grid. -/
def mkt3 : MState :=
  { agents := [⟨90, 0, 100⟩, ⟨50, 0, 100⟩, ⟨10, 0, 100⟩],
    bidders := [(0, 0), (1, 0), (2, 0)],
    askers := [(0, 100), (1, 100), (2, 100)],
    volume := 0 }

/-- The state of the three-agent market after 52 steps, each visiting the
agents in the order `0, 1, 2`. -/
def bndry : MState := runSteps (List.replicate 52 [0, 1, 2]) (mkMarket [9/10, 1/2, 1/10])

/-- The three-agent market halfway through the run to `bndry` (after 26
steps), written out. -/
def bndryMid : MState :=
  { agents := [⟨90, 26, 91⟩, ⟨50, 26, 74⟩, ⟨10, 9, 74⟩],
    bidders := [(2, 9), (1, 26), (0, 26)],
    askers := [(0, 91), (2, 74), (1, 74)],
    volume := 0 }

/-- The value of `bndry`, written out. -/
def bndryEnd : MState :=
  { agents := [⟨90, 48, 91⟩, ⟨50, 49, 51⟩, ⟨10, 9, 50⟩],
    bidders := [(2, 9), (0, 48)],
    askers := [(0, 91), (1, 51), (2, 50)],
    volume := 2 }

/-- A two-agent state with exactly one matching pair, crossing by one grid
tick: agent 0 (belief `0.50`) bids `0.31`, agent 1 (belief `0.10`) asks
`0.30`; no other quotes cross.  Both books are in canonical order. -/
def crossState : MState :=
  { agents := [⟨50, 31, 100⟩, ⟨10, 9, 30⟩],
    bidders := [(1, 9), (0, 31)],
    askers := [(0, 100), (1, 30)],
    volume := 0 }

/-- The data of a standing crossed pair: agent `A`'s bid entry and agent
`B`'s ask entry are both on the books with their current attribute values
(`a0` and `b0`), and the books satisfy `BookInv`.  The volume counter is
unconstrained. -/
def PairLive (A B : Nat) (a0 b0 : ℤ) (m : MState) : Prop :=
  BookInv m ∧ (A, a0) ∈ m.bidders ∧ (B, b0) ∈ m.askers ∧
  (agentAt m A).bid = a0 ∧ (agentAt m B).ask = b0

/-! ### Lemmas about the order-book primitives -/

theorem keys_append (d e : Book) : keys (d ++ e) = keys d ++ keys e :=
  List.map_append _ _ _

theorem mem_keys_iff {d : Book} {k : Nat} : k ∈ keys d ↔ ∃ p ∈ d, p.1 = k := by
  unfold keys
  rw [List.mem_map]

theorem odSet_of_not_mem (d : Book) (k : Nat) (v : ℤ) (h : k ∉ keys d) :
    odSet d k v = d ++ [(k, v)] := by
  unfold odSet
  rw [if_neg]
  intro hc
  rw [List.any_eq_true] at hc
  rcases hc with ⟨p, hp, hpk⟩
  rw [decide_eq_true_eq] at hpk
  exact h (mem_keys_iff.mpr ⟨p, hp, hpk⟩)

theorem odSet_of_mem (d : Book) (k : Nat) (v : ℤ) (h : k ∈ keys d) :
    odSet d k v = d.map (fun p => if p.1 = k then (k, v) else p) := by
  unfold odSet
  rw [if_pos]
  rw [List.any_eq_true]
  rcases mem_keys_iff.mp h with ⟨p, hp, hpk⟩
  exact ⟨p, hp, by rw [decide_eq_true_eq]; exact hpk⟩

theorem keys_odSet_of_mem {d : Book} {k : Nat} (v : ℤ) (h : k ∈ keys d) :
    keys (odSet d k v) = keys d := by
  rw [odSet_of_mem d k v h]
  unfold keys
  rw [List.map_map]
  apply List.map_congr_left
  intro p _
  by_cases hk : p.1 = k
  · simp [hk]
  · simp [hk]

theorem mem_odSet_of_ne {d : Book} {p : Nat × ℤ} (k : Nat) (v : ℤ)
    (hp : p ∈ d) (hne : p.1 ≠ k) : p ∈ odSet d k v := by
  unfold odSet
  split
  · exact List.mem_map.mpr ⟨p, hp, by simp [hne]⟩
  · exact List.mem_append_left _ hp

theorem mem_keys_odSet (d : Book) (k : Nat) (v : ℤ) : k ∈ keys (odSet d k v) := by
  by_cases h : k ∈ keys d
  · rw [keys_odSet_of_mem v h]; exact h
  · rw [odSet_of_not_mem d k v h, keys_append]
    exact List.mem_append_right _ (by simp [keys])

theorem odSet_ne_nil (d : Book) (k : Nat) (v : ℤ) : odSet d k v ≠ [] := by
  by_cases h : k ∈ keys d
  · rw [odSet_of_mem d k v h]
    rcases mem_keys_iff.mp h with ⟨p, hp, _⟩
    exact List.ne_nil_of_length_pos (by simp [List.length_pos_iff_ne_nil]; exact List.ne_nil_of_mem hp)
  · rw [odSet_of_not_mem d k v h]
    simp

theorem nodupKeys_odSet {d : Book} (k : Nat) (v : ℤ) (h : NodupKeys d) :
    NodupKeys (odSet d k v) := by
  by_cases hk : k ∈ keys d
  · unfold NodupKeys
    rw [keys_odSet_of_mem v hk]
    exact h
  · unfold NodupKeys
    rw [odSet_of_not_mem d k v hk, keys_append]
    simp only [List.nodup_append]
    refine ⟨h, by simp [keys], ?_⟩
    intro a ha
    simp only [keys, List.map_cons, List.map_nil, List.mem_singleton]
    intro hc
    exact hk (hc ▸ ha)

theorem insertAsc_perm (x : Nat × ℤ) (l : Book) :
    List.Perm (insertAsc x l) (x :: l) := by
  induction l with
  | nil => exact List.Perm.refl _
  | cons y ys ih =>
    unfold insertAsc
    split
    · exact (ih.cons y).trans (List.Perm.swap x y ys)
    · exact List.Perm.refl _

theorem sortAsc_perm (l : Book) : List.Perm (sortAsc l) l := by
  induction l with
  | nil => exact List.Perm.refl _
  | cons x xs ih => exact (insertAsc_perm x (sortAsc xs)).trans (ih.cons x)

theorem insertDesc_perm (x : Nat × ℤ) (l : Book) :
    List.Perm (insertDesc x l) (x :: l) := by
  induction l with
  | nil => exact List.Perm.refl _
  | cons y ys ih =>
    unfold insertDesc
    split
    · exact (ih.cons y).trans (List.Perm.swap x y ys)
    · exact List.Perm.refl _

theorem sortDesc_perm (l : Book) : List.Perm (sortDesc l) l := by
  induction l with
  | nil => exact List.Perm.refl _
  | cons x xs ih => exact (insertDesc_perm x (sortDesc xs)).trans (ih.cons x)

theorem insertAsc_sorted (x : Nat × ℤ) {l : Book} (h : SortedAsc l) :
    SortedAsc (insertAsc x l) := by
  induction l with
  | nil => simp [insertAsc, SortedAsc]
  | cons y ys ih =>
    rcases (List.pairwise_cons.mp h) with ⟨hy, hys⟩
    unfold insertAsc
    split
    · rename_i hlt
      refine List.pairwise_cons.mpr ⟨?_, ih hys⟩
      intro z hz
      rcases List.mem_cons.mp ((insertAsc_perm x ys).mem_iff.mp hz) with rfl | hz'
      · exact le_of_lt hlt
      · exact hy z hz'
    · rename_i hge
      refine List.pairwise_cons.mpr ⟨?_, h⟩
      intro z hz
      rcases List.mem_cons.mp hz with rfl | hz'
      · exact le_of_not_lt hge
      · exact le_trans (le_of_not_lt hge) (hy z hz')

theorem sortAsc_sorted (l : Book) : SortedAsc (sortAsc l) := by
  induction l with
  | nil => exact List.Pairwise.nil
  | cons x xs ih => exact insertAsc_sorted x ih

theorem insertDesc_sorted (x : Nat × ℤ) {l : Book} (h : SortedDesc l) :
    SortedDesc (insertDesc x l) := by
  induction l with
  | nil => simp [insertDesc, SortedDesc]
  | cons y ys ih =>
    rcases (List.pairwise_cons.mp h) with ⟨hy, hys⟩
    unfold insertDesc
    split
    · rename_i hlt
      refine List.pairwise_cons.mpr ⟨?_, ih hys⟩
      intro z hz
      rcases List.mem_cons.mp ((insertDesc_perm x ys).mem_iff.mp hz) with rfl | hz'
      · exact le_of_lt hlt
      · exact hy z hz'
    · rename_i hge
      refine List.pairwise_cons.mpr ⟨?_, h⟩
      intro z hz
      rcases List.mem_cons.mp hz with rfl | hz'
      · exact le_of_not_lt hge
      · exact le_trans (hy z hz') (le_of_not_lt hge)

theorem sortDesc_sorted (l : Book) : SortedDesc (sortDesc l) := by
  induction l with
  | nil => exact List.Pairwise.nil
  | cons x xs ih => exact insertDesc_sorted x ih

theorem nodupKeys_sortAsc {l : Book} (h : NodupKeys l) : NodupKeys (sortAsc l) :=
  (((sortAsc_perm l).map Prod.fst).nodup_iff).mpr h

theorem nodupKeys_sortDesc {l : Book} (h : NodupKeys l) : NodupKeys (sortDesc l) :=
  (((sortDesc_perm l).map Prod.fst).nodup_iff).mpr h

theorem mem_sortAsc_of_mem {l : Book} {p : Nat × ℤ} (h : p ∈ l) : p ∈ sortAsc l :=
  (sortAsc_perm l).mem_iff.mpr h

theorem mem_sortDesc_of_mem {l : Book} {p : Nat × ℤ} (h : p ∈ l) : p ∈ sortDesc l :=
  (sortDesc_perm l).mem_iff.mpr h

theorem nodupKeys_dropLast {l : Book} (h : NodupKeys l) : NodupKeys l.dropLast :=
  ((l.dropLast_sublist).map Prod.fst).nodup h

theorem sortedAsc_dropLast {l : Book} (h : SortedAsc l) : SortedAsc l.dropLast :=
  List.Pairwise.sublist l.dropLast_sublist h

theorem sortedDesc_dropLast {l : Book} (h : SortedDesc l) : SortedDesc l.dropLast :=
  List.Pairwise.sublist l.dropLast_sublist h

theorem le_getLast_of_sortedAsc {l : Book} (h : SortedAsc l) (hne : l ≠ []) :
    ∀ p ∈ l, p.2 ≤ (l.getLast hne).2 := by
  induction l with
  | nil => exact absurd rfl hne
  | cons x xs ih =>
    intro p hp
    cases xs with
    | nil =>
      rcases List.mem_singleton.mp hp with rfl
      exact le_refl _
    | cons y ys =>
      rw [List.getLast_cons (List.cons_ne_nil y ys)]
      rcases (List.pairwise_cons.mp h) with ⟨hx, hxs⟩
      rcases List.mem_cons.mp hp with rfl | hp'
      · exact hx _ (List.getLast_mem (List.cons_ne_nil y ys))
      · exact ih hxs (List.cons_ne_nil y ys) p hp'

theorem getLast_le_of_sortedDesc {l : Book} (h : SortedDesc l) (hne : l ≠ []) :
    ∀ p ∈ l, (l.getLast hne).2 ≤ p.2 := by
  induction l with
  | nil => exact absurd rfl hne
  | cons x xs ih =>
    intro p hp
    cases xs with
    | nil =>
      rcases List.mem_singleton.mp hp with rfl
      exact le_refl _
    | cons y ys =>
      rw [List.getLast_cons (List.cons_ne_nil y ys)]
      rcases (List.pairwise_cons.mp h) with ⟨hx, hxs⟩
      rcases List.mem_cons.mp hp with rfl | hp'
      · exact hx _ (List.getLast_mem (List.cons_ne_nil y ys))
      · exact ih hxs (List.cons_ne_nil y ys) p hp'

/-! ### Lemmas about the best-quote queries -/

theorem get_highest_bid_nil {m : MState} (h : m.bidders = []) :
    get_highest_bid m = (none, m) := by
  unfold get_highest_bid
  rw [h]
  rfl

theorem get_lowest_ask_nil {m : MState} (h : m.askers = []) :
    get_lowest_ask m = (none, m) := by
  unfold get_lowest_ask
  rw [h]
  rfl

theorem get_highest_bid_eq {m : MState} (hne : m.bidders ≠ []) :
    get_highest_bid m = (some ((m.bidders.getLast hne).2),
      { m with bidders :=
          (odSet m.bidders.dropLast (m.bidders.getLast hne).1 (m.bidders.getLast hne).2) }) := by
  unfold get_highest_bid
  rw [List.getLast?_eq_getLast _ hne]

theorem get_lowest_ask_eq {m : MState} (hne : m.askers ≠ []) :
    get_lowest_ask m = (some ((m.askers.getLast hne).2),
      { m with askers :=
          (odSet m.askers.dropLast (m.askers.getLast hne).1 (m.askers.getLast hne).2) }) := by
  unfold get_lowest_ask
  rw [List.getLast?_eq_getLast _ hne]

theorem get_highest_bid_agents (m : MState) : (get_highest_bid m).2.agents = m.agents := by
  unfold get_highest_bid
  cases m.bidders.getLast? <;> rfl

theorem get_highest_bid_askers (m : MState) : (get_highest_bid m).2.askers = m.askers := by
  unfold get_highest_bid
  cases m.bidders.getLast? <;> rfl

theorem get_highest_bid_volume (m : MState) : (get_highest_bid m).2.volume = m.volume := by
  unfold get_highest_bid
  cases m.bidders.getLast? <;> rfl

theorem get_lowest_ask_agents (m : MState) : (get_lowest_ask m).2.agents = m.agents := by
  unfold get_lowest_ask
  cases m.askers.getLast? <;> rfl

theorem get_lowest_ask_bidders (m : MState) : (get_lowest_ask m).2.bidders = m.bidders := by
  unfold get_lowest_ask
  cases m.askers.getLast? <;> rfl

theorem get_lowest_ask_volume (m : MState) : (get_lowest_ask m).2.volume = m.volume := by
  unfold get_lowest_ask
  cases m.askers.getLast? <;> rfl

theorem getLast_fst_not_mem_dropLast {l : Book} (hne : l ≠ []) (h : NodupKeys l) :
    (l.getLast hne).1 ∉ keys l.dropLast := by
  intro hmem
  have hsplit : l.dropLast ++ [l.getLast hne] = l := List.dropLast_append_getLast hne
  have hnd : (keys l.dropLast ++ keys [l.getLast hne]).Nodup := by
    rw [← keys_append, hsplit]
    exact h
  rcases List.nodup_append.mp hnd with ⟨_, _, hdisj⟩
  exact hdisj hmem (by simp [keys])

theorem odSet_dropLast_getLast {l : Book} (hne : l ≠ []) (h : NodupKeys l) :
    odSet l.dropLast (l.getLast hne).1 (l.getLast hne).2 = l := by
  rw [odSet_of_not_mem _ _ _ (getLast_fst_not_mem_dropLast hne h)]
  rw [Prod.mk.eta]
  exact List.dropLast_append_getLast hne

theorem get_highest_bid_state {m : MState} (h : NodupKeys m.bidders) :
    (get_highest_bid m).2 = m := by
  by_cases hne : m.bidders = []
  · rw [get_highest_bid_nil hne]
  · rw [get_highest_bid_eq hne]
    dsimp only
    rw [odSet_dropLast_getLast hne h]

theorem get_lowest_ask_state {m : MState} (h : NodupKeys m.askers) :
    (get_lowest_ask m).2 = m := by
  by_cases hne : m.askers = []
  · rw [get_lowest_ask_nil hne]
  · rw [get_lowest_ask_eq hne]
    dsimp only
    rw [odSet_dropLast_getLast hne h]

theorem get_lowest_ask_snd_ne_nil {m : MState} (hne : m.askers ≠ []) :
    (get_lowest_ask m).2.askers ≠ [] := by
  rw [get_lowest_ask_eq hne]
  dsimp only
  exact odSet_ne_nil _ _ _

theorem get_highest_bid_snd_ne_nil {m : MState} (hne : m.bidders ≠ []) :
    (get_highest_bid m).2.bidders ≠ [] := by
  rw [get_highest_bid_eq hne]
  dsimp only
  exact odSet_ne_nil _ _ _

/-! ### Branch equations for the buy and sell attempts -/

theorem buyChecked_eq_empty {i : Nat} {m : MState} (h : m.askers = []) :
    buyChecked i m = some m := by
  unfold buyChecked
  rw [if_neg]
  simp [h]

theorem buyChecked_eq_trade {i : Nat} {m : MState} (hne : m.askers ≠ [])
    (hcross : (m.askers.getLast hne).2 ≤ (agentAt (get_lowest_ask m).2 i).bid) :
    buyChecked i m =
      some (bumpVolume (place_bid i
        (update_bid (agentAt (get_lowest_ask m).2 i) ((m.askers.getLast hne).2) false)
        (dropAskTail (get_lowest_ask m).2))) := by
  have hfst : (get_lowest_ask m).1 = some ((m.askers.getLast hne).2) := by
    rw [get_lowest_ask_eq hne]
  unfold buyChecked
  rw [if_pos (List.length_pos_of_ne_nil hne)]
  simp only [hfst]
  rw [if_pos hcross]
  have h2 : (get_lowest_ask m).2.askers ≠ [] := get_lowest_ask_snd_ne_nil hne
  rw [List.getLast?_eq_getLast _ h2]
  rfl

theorem buyChecked_eq_noTrade {i : Nat} {m : MState} (hne : m.askers ≠ [])
    (hcross : ¬ (m.askers.getLast hne).2 ≤ (agentAt (get_lowest_ask m).2 i).bid) :
    buyChecked i m =
      some (place_bid i
        (update_bid (agentAt (get_lowest_ask m).2 i) ((m.askers.getLast hne).2) true)
        (get_lowest_ask m).2) := by
  have hfst : (get_lowest_ask m).1 = some ((m.askers.getLast hne).2) := by
    rw [get_lowest_ask_eq hne]
  unfold buyChecked
  rw [if_pos (List.length_pos_of_ne_nil hne)]
  simp only [hfst]
  rw [if_neg hcross]

theorem sellChecked_eq_empty {i : Nat} {m : MState} (h : m.bidders = []) :
    sellChecked i m = some m := by
  unfold sellChecked
  rw [if_neg]
  simp [h]

theorem sellChecked_eq_trade {i : Nat} {m : MState} (hne : m.bidders ≠ [])
    (hcross : (agentAt (get_highest_bid m).2 i).ask ≤ (m.bidders.getLast hne).2) :
    sellChecked i m =
      some (bumpVolume (place_ask i
        (update_ask (agentAt (get_highest_bid m).2 i) ((m.bidders.getLast hne).2) false)
        (dropBidTail (get_highest_bid m).2))) := by
  have hfst : (get_highest_bid m).1 = some ((m.bidders.getLast hne).2) := by
    rw [get_highest_bid_eq hne]
  unfold sellChecked
  rw [if_pos (List.length_pos_of_ne_nil hne)]
  simp only [hfst]
  rw [if_pos hcross]
  have h2 : (get_highest_bid m).2.bidders ≠ [] := get_highest_bid_snd_ne_nil hne
  rw [List.getLast?_eq_getLast _ h2]
  rfl

theorem sellChecked_eq_noTrade {i : Nat} {m : MState} (hne : m.bidders ≠ [])
    (hcross : ¬ (agentAt (get_highest_bid m).2 i).ask ≤ (m.bidders.getLast hne).2) :
    sellChecked i m =
      some (place_ask i
        (update_ask (agentAt (get_highest_bid m).2 i) ((m.bidders.getLast hne).2) true)
        (get_highest_bid m).2) := by
  have hfst : (get_highest_bid m).1 = some ((m.bidders.getLast hne).2) := by
    rw [get_highest_bid_eq hne]
  unfold sellChecked
  rw [if_pos (List.length_pos_of_ne_nil hne)]
  simp only [hfst]
  rw [if_neg hcross]

theorem buyChecked_isSome (i : Nat) (m : MState) : (buyChecked i m).isSome := by
  by_cases hne : m.askers = []
  · rw [buyChecked_eq_empty hne]; rfl
  · by_cases hcross : (m.askers.getLast hne).2 ≤ (agentAt (get_lowest_ask m).2 i).bid
    · rw [buyChecked_eq_trade hne hcross]; rfl
    · rw [buyChecked_eq_noTrade hne hcross]; rfl

theorem sellChecked_isSome (i : Nat) (m : MState) : (sellChecked i m).isSome := by
  by_cases hne : m.bidders = []
  · rw [sellChecked_eq_empty hne]; rfl
  · by_cases hcross : (agentAt (get_highest_bid m).2 i).ask ≤ (m.bidders.getLast hne).2
    · rw [sellChecked_eq_trade hne hcross]; rfl
    · rw [sellChecked_eq_noTrade hne hcross]; rfl

theorem buyChecked_eq_some_buy (i : Nat) (m : MState) :
    buyChecked i m = some (buy i m) := by
  unfold buy
  cases hb : buyChecked i m with
  | none => exact absurd (hb ▸ buyChecked_isSome i m) (by simp)
  | some x => rfl

theorem sellChecked_eq_some_sell (i : Nat) (m : MState) :
    sellChecked i m = some (sell i m) := by
  unfold sell
  cases hb : sellChecked i m with
  | none => exact absurd (hb ▸ sellChecked_isSome i m) (by simp)
  | some x => rfl

theorem buy_eq_of_checked {i : Nat} {m x : MState} (h : buyChecked i m = some x) :
    buy i m = x := by
  unfold buy
  rw [h]
  rfl

theorem sell_eq_of_checked {i : Nat} {m x : MState} (h : sellChecked i m = some x) :
    sell i m = x := by
  unfold sell
  rw [h]
  rfl

/-! ### Field and volume bookkeeping -/

theorem place_bid_askers (i : Nat) (b : ℤ) (m : MState) :
    (place_bid i b m).askers = m.askers := rfl

theorem place_bid_bidders (i : Nat) (b : ℤ) (m : MState) :
    (place_bid i b m).bidders = sortAsc (odSet m.bidders i b) := rfl

theorem place_bid_agents (i : Nat) (b : ℤ) (m : MState) :
    (place_bid i b m).agents = m.agents.set i { agentAt m i with bid := b } := rfl

theorem place_bid_volume (i : Nat) (b : ℤ) (m : MState) :
    (place_bid i b m).volume = m.volume := rfl

theorem place_ask_bidders (i : Nat) (a : ℤ) (m : MState) :
    (place_ask i a m).bidders = m.bidders := rfl

theorem place_ask_askers (i : Nat) (a : ℤ) (m : MState) :
    (place_ask i a m).askers = sortDesc (odSet m.askers i a) := rfl

theorem place_ask_agents (i : Nat) (a : ℤ) (m : MState) :
    (place_ask i a m).agents = m.agents.set i { agentAt m i with ask := a } := rfl

theorem place_ask_volume (i : Nat) (a : ℤ) (m : MState) :
    (place_ask i a m).volume = m.volume := rfl

theorem volume_le_buy (i : Nat) (m : MState) : m.volume ≤ (buy i m).volume := by
  by_cases hne : m.askers = []
  · rw [buy_eq_of_checked (buyChecked_eq_empty hne)]
  · by_cases hcross : (m.askers.getLast hne).2 ≤ (agentAt (get_lowest_ask m).2 i).bid
    · rw [buy_eq_of_checked (buyChecked_eq_trade hne hcross)]
      show m.volume ≤ (get_lowest_ask m).2.volume + 1
      rw [get_lowest_ask_volume]
      exact Nat.le_succ _
    · rw [buy_eq_of_checked (buyChecked_eq_noTrade hne hcross)]
      show m.volume ≤ (get_lowest_ask m).2.volume
      rw [get_lowest_ask_volume]

theorem volume_le_sell (i : Nat) (m : MState) : m.volume ≤ (sell i m).volume := by
  by_cases hne : m.bidders = []
  · rw [sell_eq_of_checked (sellChecked_eq_empty hne)]
  · by_cases hcross : (agentAt (get_highest_bid m).2 i).ask ≤ (m.bidders.getLast hne).2
    · rw [sell_eq_of_checked (sellChecked_eq_trade hne hcross)]
      show m.volume ≤ (get_highest_bid m).2.volume + 1
      rw [get_highest_bid_volume]
      exact Nat.le_succ _
    · rw [sell_eq_of_checked (sellChecked_eq_noTrade hne hcross)]
      show m.volume ≤ (get_highest_bid m).2.volume
      rw [get_highest_bid_volume]

theorem volume_le_agentStep (i : Nat) (m : MState) : m.volume ≤ (agentStep i m).volume :=
  le_trans (volume_le_buy i m) (volume_le_sell i (buy i m))

theorem volume_le_fold (l : List Nat) :
    ∀ m : MState, m.volume ≤ (l.foldl (fun s i => agentStep i s) m).volume := by
  induction l with
  | nil => intro m; exact le_refl _
  | cons i t ih =>
    intro m
    exact le_trans (volume_le_agentStep i m) (ih (agentStep i m))

/-! ### Preservation of the book invariant -/

theorem bookInv_place_bid (i : Nat) (b : ℤ) {m : MState} (h : BookInv m) :
    BookInv (place_bid i b m) := by
  refine ⟨sortAsc_sorted _, ?_, ?_, ?_⟩
  · rw [SortedDesc, place_bid_askers]; exact h.2.1
  · exact nodupKeys_sortAsc (nodupKeys_odSet i b h.2.2.1)
  · rw [NodupKeys, place_bid_askers]; exact h.2.2.2

theorem bookInv_place_ask (i : Nat) (a : ℤ) {m : MState} (h : BookInv m) :
    BookInv (place_ask i a m) := by
  refine ⟨?_, sortDesc_sorted _, ?_, ?_⟩
  · rw [SortedAsc, place_ask_bidders]; exact h.1
  · rw [NodupKeys, place_ask_bidders]; exact h.2.2.1
  · exact nodupKeys_sortDesc (nodupKeys_odSet i a h.2.2.2)

theorem bookInv_dropAskTail {m : MState} (h : BookInv m) : BookInv (dropAskTail m) :=
  ⟨h.1, sortedDesc_dropLast h.2.1, h.2.2.1, nodupKeys_dropLast h.2.2.2⟩

theorem bookInv_dropBidTail {m : MState} (h : BookInv m) : BookInv (dropBidTail m) :=
  ⟨sortedAsc_dropLast h.1, h.2.1, nodupKeys_dropLast h.2.2.1, h.2.2.2⟩

theorem bookInv_bumpVolume {m : MState} (h : BookInv m) : BookInv (bumpVolume m) := h

theorem bookInv_buy (i : Nat) {m : MState} (h : BookInv m) : BookInv (buy i m) := by
  by_cases hne : m.askers = []
  · rw [buy_eq_of_checked (buyChecked_eq_empty hne)]; exact h
  · have hst : (get_lowest_ask m).2 = m := get_lowest_ask_state h.2.2.2
    have hb2 : BookInv (get_lowest_ask m).2 := by rw [hst]; exact h
    by_cases hcross : (m.askers.getLast hne).2 ≤ (agentAt (get_lowest_ask m).2 i).bid
    · rw [buy_eq_of_checked (buyChecked_eq_trade hne hcross)]
      exact bookInv_bumpVolume (bookInv_place_bid _ _ (bookInv_dropAskTail hb2))
    · rw [buy_eq_of_checked (buyChecked_eq_noTrade hne hcross)]
      exact bookInv_place_bid _ _ hb2

theorem bookInv_sell (i : Nat) {m : MState} (h : BookInv m) : BookInv (sell i m) := by
  by_cases hne : m.bidders = []
  · rw [sell_eq_of_checked (sellChecked_eq_empty hne)]; exact h
  · have hst : (get_highest_bid m).2 = m := get_highest_bid_state h.2.2.1
    have hb2 : BookInv (get_highest_bid m).2 := by rw [hst]; exact h
    by_cases hcross : (agentAt (get_highest_bid m).2 i).ask ≤ (m.bidders.getLast hne).2
    · rw [sell_eq_of_checked (sellChecked_eq_trade hne hcross)]
      exact bookInv_place_ask _ _ (bookInv_dropBidTail hb2)
    · rw [sell_eq_of_checked (sellChecked_eq_noTrade hne hcross)]
      exact bookInv_place_ask _ _ hb2

theorem bookInv_mkMarket (ps : List ℚ) : BookInv (mkMarket ps) := by
  refine ⟨?_, ?_, ?_, ?_⟩
  · exact List.pairwise_map.mpr ((List.pairwise_lt_range _).imp (fun _ => le_refl 0))
  · exact List.pairwise_map.mpr ((List.pairwise_lt_range _).imp (fun _ => le_refl 100))
  · show (keys ((List.range ps.length).map (fun i => (i, (0 : ℤ))))).Nodup
    unfold keys
    rw [List.map_map]
    have hid : (Prod.fst ∘ fun i : Nat => (i, (0 : ℤ))) = fun i => i := rfl
    rw [hid, List.map_id']
    exact List.nodup_range ps.length
  · show (keys ((List.range ps.length).map (fun i => (i, (100 : ℤ))))).Nodup
    unfold keys
    rw [List.map_map]
    have hid : (Prod.fst ∘ fun i : Nat => (i, (100 : ℤ))) = fun i => i := rfl
    rw [hid, List.map_id']
    exact List.nodup_range ps.length

theorem bookInv_reach {m : MState} (h : Reach m) : BookInv m := by
  induction h with
  | init ps => exact bookInv_mkMarket ps
  | rbuy i _ ih => exact bookInv_buy i ih
  | rsell i _ ih => exact bookInv_sell i ih
  | rreset _ ih => exact ih

/-! ### Preservation of the agent quote-range invariant -/

theorem agentInv_agentAt {m : MState} (h : AgentsInv m) (i : Nat) :
    AgentInv (agentAt m i) := by
  unfold agentAt
  by_cases hlt : i < m.agents.length
  · rw [List.getD_eq_getElem _ _ hlt]
    exact h _ (m.agents.getElem_mem hlt)
  · rw [List.getD_eq_default _ _ (le_of_not_lt hlt)]
    exact ⟨le_refl 0, by norm_num, by norm_num, by norm_num⟩

theorem agentInv_update_bid {a : AgentSt} (r : ℤ) (flag : Bool) (h : AgentInv a) :
    0 ≤ update_bid a r flag ∧ update_bid a r flag ≤ a.prob - 1 := by
  rcases h with ⟨h1, h2, h3, h4⟩
  unfold update_bid
  cases flag <;> dsimp only <;> split_ifs <;> omega

theorem agentInv_update_ask {a : AgentSt} (r : ℤ) (flag : Bool) (h : AgentInv a) :
    a.prob + 1 ≤ update_ask a r flag ∧ update_ask a r flag ≤ 100 := by
  rcases h with ⟨h1, h2, h3, h4⟩
  unfold update_ask
  cases flag <;> dsimp only <;> split_ifs <;> omega

theorem agentsInv_of_agents_eq {m m' : MState} (he : m'.agents = m.agents)
    (h : AgentsInv m) : AgentsInv m' := by
  intro a ha
  exact h a (he ▸ ha)

theorem agentAt_of_agents_eq {m m' : MState} (he : m'.agents = m.agents) (i : Nat) :
    agentAt m' i = agentAt m i := by
  unfold agentAt
  rw [he]

theorem agentsInv_place_bid (i : Nat) {b : ℤ} {m : MState} (h : AgentsInv m)
    (hb : 0 ≤ b ∧ b ≤ (agentAt m i).prob - 1) : AgentsInv (place_bid i b m) := by
  intro a ha
  rw [place_bid_agents] at ha
  rcases List.mem_or_eq_of_mem_set ha with ha' | rfl
  · exact h a ha'
  · have := agentInv_agentAt h i
    exact ⟨hb.1, hb.2, this.2.2.1, this.2.2.2⟩

theorem agentsInv_place_ask (i : Nat) {b : ℤ} {m : MState} (h : AgentsInv m)
    (hb : (agentAt m i).prob + 1 ≤ b ∧ b ≤ 100) : AgentsInv (place_ask i b m) := by
  intro a ha
  rw [place_ask_agents] at ha
  rcases List.mem_or_eq_of_mem_set ha with ha' | rfl
  · exact h a ha'
  · have := agentInv_agentAt h i
    exact ⟨this.1, this.2.1, hb.1, hb.2⟩

theorem agentsInv_buy (i : Nat) {m : MState} (h : AgentsInv m) : AgentsInv (buy i m) := by
  by_cases hne : m.askers = []
  · rw [buy_eq_of_checked (buyChecked_eq_empty hne)]; exact h
  · have hag : (get_lowest_ask m).2.agents = m.agents := get_lowest_ask_agents m
    have h1 : AgentsInv (get_lowest_ask m).2 := agentsInv_of_agents_eq hag h
    have hat : agentAt (get_lowest_ask m).2 i = agentAt m i := agentAt_of_agents_eq hag i
    by_cases hcross : (m.askers.getLast hne).2 ≤ (agentAt (get_lowest_ask m).2 i).bid
    · rw [buy_eq_of_checked (buyChecked_eq_trade hne hcross)]
      have hag2 : (dropAskTail (get_lowest_ask m).2).agents = m.agents := get_lowest_ask_agents m
      have hat2 : agentAt (dropAskTail (get_lowest_ask m).2) i = agentAt m i :=
        agentAt_of_agents_eq hag2 i
      refine agentsInv_place_bid i (agentsInv_of_agents_eq hag2 h) ?_
      rw [hat2, hat]
      exact agentInv_update_bid ((m.askers.getLast hne).2) false (agentInv_agentAt h i)
    · rw [buy_eq_of_checked (buyChecked_eq_noTrade hne hcross)]
      refine agentsInv_place_bid i h1 ?_
      have hinv := agentInv_agentAt h1 i
      exact agentInv_update_bid ((m.askers.getLast hne).2) true hinv

theorem agentsInv_sell (i : Nat) {m : MState} (h : AgentsInv m) : AgentsInv (sell i m) := by
  by_cases hne : m.bidders = []
  · rw [sell_eq_of_checked (sellChecked_eq_empty hne)]; exact h
  · have hag : (get_highest_bid m).2.agents = m.agents := get_highest_bid_agents m
    have h1 : AgentsInv (get_highest_bid m).2 := agentsInv_of_agents_eq hag h
    have hat : agentAt (get_highest_bid m).2 i = agentAt m i := agentAt_of_agents_eq hag i
    by_cases hcross : (agentAt (get_highest_bid m).2 i).ask ≤ (m.bidders.getLast hne).2
    · rw [sell_eq_of_checked (sellChecked_eq_trade hne hcross)]
      have hag2 : (dropBidTail (get_highest_bid m).2).agents = m.agents := get_highest_bid_agents m
      have hat2 : agentAt (dropBidTail (get_highest_bid m).2) i = agentAt m i :=
        agentAt_of_agents_eq hag2 i
      refine agentsInv_place_ask i (agentsInv_of_agents_eq hag2 h) ?_
      rw [hat2, hat]
      exact agentInv_update_ask ((m.bidders.getLast hne).2) false (agentInv_agentAt h i)
    · rw [sell_eq_of_checked (sellChecked_eq_noTrade hne hcross)]
      refine agentsInv_place_ask i h1 ?_
      have hinv := agentInv_agentAt h1 i
      exact agentInv_update_ask ((m.bidders.getLast hne).2) true hinv

theorem clampProb_bounds (p : ℚ) : 1 ≤ clampProb p ∧ clampProb p ≤ 99 := by
  unfold clampProb
  dsimp only
  split_ifs <;> omega

theorem agentsInv_mkMarket (ps : List ℚ) : AgentsInv (mkMarket ps) := by
  intro a ha
  rcases List.mem_map.mp ha with ⟨p, _, rfl⟩
  rcases clampProb_bounds p with ⟨hlo, hhi⟩
  show 0 ≤ (0 : ℤ) ∧ (0 : ℤ) ≤ clampProb p - 1 ∧ clampProb p + 1 ≤ 100 ∧ (100 : ℤ) ≤ 100
  exact ⟨le_refl 0, by omega, by omega, le_refl 100⟩

theorem agentsInv_reach {m : MState} (h : Reach m) : AgentsInv m := by
  induction h with
  | init ps => exact agentsInv_mkMarket ps
  | rbuy i _ ih => exact agentsInv_buy i ih
  | rsell i _ ih => exact agentsInv_sell i ih
  | rreset _ ih => exact ih

theorem agentsInv_step (order : List Nat) {m : MState} (h : AgentsInv m) :
    AgentsInv (step order m) := by
  unfold step
  suffices hs : ∀ (l : List Nat) (s : MState), AgentsInv s →
      AgentsInv (l.foldl (fun s i => agentStep i s) s) by
    exact hs order _ h
  intro l
  induction l with
  | nil => intro s hs; exact hs
  | cons i t ih =>
    intro s hs
    exact ih _ (agentsInv_sell i (agentsInv_buy i hs))

/-! ### Reachability closure -/

theorem reach_agentStep (i : Nat) {m : MState} (h : Reach m) : Reach (agentStep i m) :=
  Reach.rsell i (Reach.rbuy i h)

theorem reach_fold (l : List Nat) :
    ∀ {m : MState}, Reach m → Reach (l.foldl (fun s i => agentStep i s) m) := by
  induction l with
  | nil => intro m h; exact h
  | cons i t ih =>
    intro m h
    exact ih (reach_agentStep i h)

theorem reach_step (order : List Nat) {m : MState} (h : Reach m) : Reach (step order m) :=
  reach_fold order (Reach.rreset h)

theorem reach_runSteps (orders : List (List Nat)) :
    ∀ {m : MState}, Reach m → Reach (runSteps orders m) := by
  induction orders with
  | nil => intro m h; exact h
  | cons o t ih =>
    intro m h
    exact ih (reach_step o h)

/-! ### A standing crossed pair forces a trade within the step -/

theorem agentAt_place_bid_ne {i j : Nat} (hij : i ≠ j) (b : ℤ) (m : MState) :
    agentAt (place_bid i b m) j = agentAt m j := by
  unfold agentAt
  rw [place_bid_agents, List.getD_eq_getElem?_getD, List.getD_eq_getElem?_getD,
    List.getElem?_set_ne hij]

theorem agentAt_place_ask_ne {i j : Nat} (hij : i ≠ j) (b : ℤ) (m : MState) :
    agentAt (place_ask i b m) j = agentAt m j := by
  unfold agentAt
  rw [place_ask_agents, List.getD_eq_getElem?_getD, List.getD_eq_getElem?_getD,
    List.getElem?_set_ne hij]

theorem agentAt_place_bid_ask (i j : Nat) (b : ℤ) (m : MState) :
    (agentAt (place_bid i b m) j).ask = (agentAt m j).ask := by
  by_cases hij : i = j
  · subst hij
    by_cases hlt : i < m.agents.length
    · have hlt' : i < (m.agents.set i { agentAt m i with bid := b }).length := by
        rw [List.length_set]
        exact hlt
      show (agentAt { m with agents := _ } i).ask = _
      unfold agentAt
      rw [place_bid_agents, List.getD_eq_getElem _ _ hlt', List.getElem_set_self hlt']
      show (agentAt m i).ask = _
      unfold agentAt
      rw [List.getD_eq_getElem _ _ hlt]
    · unfold agentAt
      rw [place_bid_agents, List.set_eq_of_length_le (le_of_not_lt hlt)]
  · rw [agentAt_place_bid_ne hij]

theorem agentAt_place_ask_bid (i j : Nat) (b : ℤ) (m : MState) :
    (agentAt (place_ask i b m) j).bid = (agentAt m j).bid := by
  by_cases hij : i = j
  · subst hij
    by_cases hlt : i < m.agents.length
    · have hlt' : i < (m.agents.set i { agentAt m i with ask := b }).length := by
        rw [List.length_set]
        exact hlt
      show (agentAt { m with agents := _ } i).bid = _
      unfold agentAt
      rw [place_ask_agents, List.getD_eq_getElem _ _ hlt', List.getElem_set_self hlt']
      show (agentAt m i).bid = _
      unfold agentAt
      rw [List.getD_eq_getElem _ _ hlt]
    · unfold agentAt
      rw [place_ask_agents, List.set_eq_of_length_le (le_of_not_lt hlt)]
  · rw [agentAt_place_ask_ne hij]

theorem pairLive_buy {A B : Nat} {a0 b0 : ℤ} {m : MState} (i : Nat) (hiA : i ≠ A)
    (h : PairLive A B a0 b0 m) :
    PairLive A B a0 b0 (buy i m) ∨ 1 ≤ (buy i m).volume := by
  rcases h with ⟨hinv, hmb, hma, haA, haB⟩
  by_cases hne : m.askers = []
  · left
    rw [buy_eq_of_checked (buyChecked_eq_empty hne)]
    exact ⟨hinv, hmb, hma, haA, haB⟩
  · have hst : (get_lowest_ask m).2 = m := get_lowest_ask_state hinv.2.2.2
    by_cases hcross : (m.askers.getLast hne).2 ≤ (agentAt (get_lowest_ask m).2 i).bid
    · right
      rw [buy_eq_of_checked (buyChecked_eq_trade hne hcross)]
      exact Nat.succ_le_succ (Nat.zero_le _)
    · left
      rw [buy_eq_of_checked (buyChecked_eq_noTrade hne hcross), hst]
      refine ⟨bookInv_place_bid _ _ hinv, ?_, ?_, ?_, ?_⟩
      · rw [place_bid_bidders]
        exact mem_sortAsc_of_mem (mem_odSet_of_ne i _ hmb (fun hc => hiA hc.symm))
      · rw [place_bid_askers]
        exact hma
      · rw [agentAt_place_bid_ne (fun hc => hiA hc)]
        exact haA
      · rw [agentAt_place_bid_ask]
        exact haB

theorem pairLive_sell {A B : Nat} {a0 b0 : ℤ} {m : MState} (i : Nat) (hiB : i ≠ B)
    (h : PairLive A B a0 b0 m) :
    PairLive A B a0 b0 (sell i m) ∨ 1 ≤ (sell i m).volume := by
  rcases h with ⟨hinv, hmb, hma, haA, haB⟩
  by_cases hne : m.bidders = []
  · left
    rw [sell_eq_of_checked (sellChecked_eq_empty hne)]
    exact ⟨hinv, hmb, hma, haA, haB⟩
  · have hst : (get_highest_bid m).2 = m := get_highest_bid_state hinv.2.2.1
    by_cases hcross : (agentAt (get_highest_bid m).2 i).ask ≤ (m.bidders.getLast hne).2
    · right
      rw [sell_eq_of_checked (sellChecked_eq_trade hne hcross)]
      exact Nat.succ_le_succ (Nat.zero_le _)
    · left
      rw [sell_eq_of_checked (sellChecked_eq_noTrade hne hcross), hst]
      refine ⟨bookInv_place_ask _ _ hinv, ?_, ?_, ?_, ?_⟩
      · rw [place_ask_bidders]
        exact hmb
      · rw [place_ask_askers]
        exact mem_sortDesc_of_mem (mem_odSet_of_ne i _ hma (fun hc => hiB hc.symm))
      · rw [agentAt_place_ask_bid]
        exact haA
      · rw [agentAt_place_ask_ne (fun hc => hiB hc)]
        exact haB

theorem pairLive_buy_trigger {A B : Nat} {a0 b0 : ℤ} {m : MState}
    (hcross0 : b0 ≤ a0) (h : PairLive A B a0 b0 m) : 1 ≤ (buy A m).volume := by
  rcases h with ⟨hinv, hmb, hma, haA, haB⟩
  have hne : m.askers ≠ [] := List.ne_nil_of_mem hma
  have hst : (get_lowest_ask m).2 = m := get_lowest_ask_state hinv.2.2.2
  have hlow : (m.askers.getLast hne).2 ≤ b0 :=
    getLast_le_of_sortedDesc hinv.2.1 hne _ hma
  have hcross : (m.askers.getLast hne).2 ≤ (agentAt (get_lowest_ask m).2 A).bid := by
    rw [hst, haA]
    exact le_trans hlow hcross0
  rw [buy_eq_of_checked (buyChecked_eq_trade hne hcross)]
  exact Nat.succ_le_succ (Nat.zero_le _)

theorem pairLive_sell_trigger {A B : Nat} {a0 b0 : ℤ} {m : MState}
    (hcross0 : b0 ≤ a0) (h : PairLive A B a0 b0 m) : 1 ≤ (sell B m).volume := by
  rcases h with ⟨hinv, hmb, hma, haA, haB⟩
  have hne : m.bidders ≠ [] := List.ne_nil_of_mem hmb
  have hst : (get_highest_bid m).2 = m := get_highest_bid_state hinv.2.2.1
  have hhigh : a0 ≤ (m.bidders.getLast hne).2 :=
    le_getLast_of_sortedAsc hinv.1 hne _ hmb
  have hcross : (agentAt (get_highest_bid m).2 B).ask ≤ (m.bidders.getLast hne).2 := by
    rw [hst, haB]
    exact le_trans hcross0 hhigh
  rw [sell_eq_of_checked (sellChecked_eq_trade hne hcross)]
  exact Nat.succ_le_succ (Nat.zero_le _)

theorem pairLive_step_A {A B : Nat} {a0 b0 : ℤ} {m : MState}
    (hcross0 : b0 ≤ a0) (h : PairLive A B a0 b0 m) : 1 ≤ (agentStep A m).volume :=
  le_trans (pairLive_buy_trigger hcross0 h) (volume_le_sell A (buy A m))

theorem pairLive_step_B {A B : Nat} {a0 b0 : ℤ} {m : MState} (hAB : A ≠ B)
    (hcross0 : b0 ≤ a0) (h : PairLive A B a0 b0 m) : 1 ≤ (agentStep B m).volume := by
  rcases pairLive_buy B (fun hc => hAB hc.symm) h with h' | hv
  · exact pairLive_sell_trigger hcross0 h'
  · exact le_trans hv (volume_le_sell B (buy B m))

theorem pairLive_agentStep {A B : Nat} {a0 b0 : ℤ} {m : MState} (i : Nat)
    (hiA : i ≠ A) (hiB : i ≠ B) (h : PairLive A B a0 b0 m) :
    PairLive A B a0 b0 (agentStep i m) ∨ 1 ≤ (agentStep i m).volume := by
  rcases pairLive_buy i hiA h with h' | hv
  · exact pairLive_sell i hiB h'
  · exact Or.inr (le_trans hv (volume_le_sell i (buy i m)))

theorem pairLive_fold {A B : Nat} {a0 b0 : ℤ} (hAB : A ≠ B) (hcross0 : b0 ≤ a0) :
    ∀ (l : List Nat) (m : MState),
      (PairLive A B a0 b0 m ∧ (A ∈ l ∨ B ∈ l)) ∨ 1 ≤ m.volume →
      1 ≤ (l.foldl (fun s i => agentStep i s) m).volume := by
  intro l
  induction l with
  | nil =>
    intro m h
    rcases h with ⟨_, hmem⟩ | hv
    · rcases hmem with hc | hc <;> exact absurd hc (List.not_mem_nil _)
    · exact hv
  | cons i t ih =>
    intro m h
    rw [List.foldl_cons]
    rcases h with ⟨hp, hmem⟩ | hv
    · by_cases hiA : i = A
      · subst hiA
        exact ih _ (Or.inr (pairLive_step_A hcross0 hp))
      · by_cases hiB : i = B
        · subst hiB
          exact ih _ (Or.inr (pairLive_step_B hAB hcross0 hp))
        · rcases pairLive_agentStep i hiA hiB hp with hp' | hv'
          · refine ih _ (Or.inl ⟨hp', ?_⟩)
            rcases hmem with hmem | hmem
            · exact Or.inl (List.mem_of_ne_of_mem (fun hc => hiA hc.symm) hmem)
            · exact Or.inr (List.mem_of_ne_of_mem (fun hc => hiB hc.symm) hmem)
          · exact ih _ (Or.inr hv')
    · exact ih _ (Or.inr (le_trans hv (volume_le_agentStep i m)))

theorem crossed_pair_step_volume {A B : Nat} {a0 b0 : ℤ} {m : MState} (order : List Nat)
    (hAB : A ≠ B) (hA : A ∈ order) (hcross0 : b0 ≤ a0) (h : PairLive A B a0 b0 m) :
    1 ≤ (step order m).volume := by
  unfold step
  refine pairLive_fold hAB hcross0 order _ (Or.inl ⟨?_, Or.inl hA⟩)
  exact h

/-! ### Helpers for the individual claims -/

theorem mem_keys_sortAsc_odSet (d : Book) (i : Nat) (v : ℤ) :
    i ∈ keys (sortAsc (odSet d i v)) :=
  (((sortAsc_perm (odSet d i v)).map Prod.fst).mem_iff).mpr (mem_keys_odSet d i v)

theorem mem_keys_sortDesc_odSet (d : Book) (i : Nat) (v : ℤ) :
    i ∈ keys (sortDesc (odSet d i v)) :=
  (((sortDesc_perm (odSet d i v)).map Prod.fst).mem_iff).mpr (mem_keys_odSet d i v)

theorem mem_keys_bidders_buy (i : Nat) {m : MState} (hne : m.askers ≠ []) :
    i ∈ keys (buy i m).bidders := by
  by_cases hcross : (m.askers.getLast hne).2 ≤ (agentAt (get_lowest_ask m).2 i).bid
  · rw [buy_eq_of_checked (buyChecked_eq_trade hne hcross)]
    exact mem_keys_sortAsc_odSet _ i _
  · rw [buy_eq_of_checked (buyChecked_eq_noTrade hne hcross)]
    exact mem_keys_sortAsc_odSet _ i _

theorem mem_keys_askers_sell (i : Nat) {m : MState} (hne : m.bidders ≠ []) :
    i ∈ keys (sell i m).askers := by
  by_cases hcross : (agentAt (get_highest_bid m).2 i).ask ≤ (m.bidders.getLast hne).2
  · rw [sell_eq_of_checked (sellChecked_eq_trade hne hcross)]
    exact mem_keys_sortDesc_odSet _ i _
  · rw [sell_eq_of_checked (sellChecked_eq_noTrade hne hcross)]
    exact mem_keys_sortDesc_odSet _ i _

theorem get_highest_bid_fst_none_iff (m : MState) :
    (get_highest_bid m).1 = none ↔ m.bidders = [] := by
  constructor
  · intro h
    by_contra hne
    rw [get_highest_bid_eq hne] at h
    exact Option.noConfusion h
  · intro h
    rw [get_highest_bid_nil h]

theorem get_lowest_ask_fst_none_iff (m : MState) :
    (get_lowest_ask m).1 = none ↔ m.askers = [] := by
  constructor
  · intro h
    by_contra hne
    rw [get_lowest_ask_eq hne] at h
    exact Option.noConfusion h
  · intro h
    rw [get_lowest_ask_nil h]

theorem get_highest_bid_fst_max {m : MState} (hs : SortedAsc m.bidders) {q : ℤ}
    (hq : (get_highest_bid m).1 = some q) :
    (∃ p ∈ m.bidders, p.2 = q) ∧ ∀ p ∈ m.bidders, p.2 ≤ q := by
  by_cases hne : m.bidders = []
  · rw [get_highest_bid_nil hne] at hq
    exact Option.noConfusion hq
  · rw [get_highest_bid_eq hne] at hq
    have hq' : (m.bidders.getLast hne).2 = q := Option.some.inj hq
    subst hq'
    exact ⟨⟨m.bidders.getLast hne, List.getLast_mem hne, rfl⟩,
      le_getLast_of_sortedAsc hs hne⟩

theorem get_lowest_ask_fst_min {m : MState} (hs : SortedDesc m.askers) {q : ℤ}
    (hq : (get_lowest_ask m).1 = some q) :
    (∃ p ∈ m.askers, p.2 = q) ∧ ∀ p ∈ m.askers, q ≤ p.2 := by
  by_cases hne : m.askers = []
  · rw [get_lowest_ask_nil hne] at hq
    exact Option.noConfusion hq
  · rw [get_lowest_ask_eq hne] at hq
    have hq' : (m.askers.getLast hne).2 = q := Option.some.inj hq
    subst hq'
    exact ⟨⟨m.askers.getLast hne, List.getLast_mem hne, rfl⟩,
      getLast_le_of_sortedDesc hs hne⟩

theorem step_nil (m : MState) : step [] m = { m with volume := 0 } := rfl

theorem runSteps_replicate_nil (n : Nat) :
    runSteps (List.replicate n []) (mkMarket []) = mkMarket [] := by
  induction n with
  | zero => rfl
  | succ k ih =>
    rw [List.replicate_succ]
    show runSteps (List.replicate k []) (step [] (mkMarket [])) = mkMarket []
    exact ih

theorem update_bid_eq_min_max (a : AgentSt) (r : ℤ) :
    update_bid a r true = min (a.bid + 1) (a.prob - 1) ∧
    update_bid a r false = max (a.bid - 1) 0 := by
  constructor
  · show (if a.prob - 1 ≤ a.bid + 1 then a.prob - 1 else a.bid + 1) =
      min (a.bid + 1) (a.prob - 1)
    split_ifs with h <;> omega
  · show (if a.bid - 1 < 0 then 0 else a.bid - 1) = max (a.bid - 1) 0
    split_ifs with h <;> omega

theorem update_ask_eq_min_max (a : AgentSt) (r : ℤ) :
    update_ask a r true = max (a.ask - 1) (a.prob + 1) ∧
    update_ask a r false = min (a.ask + 1) 100 := by
  constructor
  · show (if a.ask - 1 ≤ a.prob + 1 then a.prob + 1 else a.ask - 1) =
      max (a.ask - 1) (a.prob + 1)
    split_ifs with h <;> omega
  · show (if (100 : ℤ) < a.ask + 1 then 100 else a.ask + 1) = min (a.ask + 1) 100
    split_ifs with h <;> omega

theorem clampProb_of_one_le {p : ℚ} (hp : 1 ≤ p) : clampProb p = 99 := by
  have h2 : (100 : ℤ) ≤ round (100 * p) := by
    rw [round_eq]
    refine Int.le_floor.mpr ?_
    push_cast
    linarith
  unfold clampProb
  dsimp only
  rw [if_pos h2]

theorem clampProb_of_nonpos {p : ℚ} (hp : p ≤ 0) : clampProb p = 1 := by
  have h2 : round (100 * p) ≤ 0 := by
    rw [round_eq]
    have : (100 : ℚ) * p + 1 / 2 < 1 := by linarith
    have hlt : ⌊(100 : ℚ) * p + 1 / 2⌋ < 1 := Int.floor_lt.mpr (by push_cast; linarith)
    omega
  unfold clampProb
  dsimp only
  rw [if_neg (by omega), if_pos h2]

theorem clampProb_of_between {p : ℚ} (h1 : 0 < round (100 * p))
    (h2 : round (100 * p) < 100) : clampProb p = round (100 * p) := by
  unfold clampProb
  dsimp only
  rw [if_neg (by omega), if_neg (by omega)]

/-! ### Evaluation of the concrete markets -/

theorem mkMarket_two : mkMarket [9/10, 1/10] = mkt2 := by
  norm_num [mkMarket, mkt2, clampProb, round_eq]
  decide

theorem mkMarket_three : mkMarket [9/10, 1/2, 1/10] = mkt3 := by
  norm_num [mkMarket, mkt3, clampProb, round_eq]
  decide

theorem runSteps_append (l1 l2 : List (List Nat)) (m : MState) :
    runSteps (l1 ++ l2) m = runSteps l2 (runSteps l1 m) := by
  unfold runSteps
  exact List.foldl_append _ _ l1 l2

theorem bndry_mid_eval : runSteps (List.replicate 26 [0, 1, 2]) mkt3 = bndryMid := by
  decide

theorem bndry_eval : bndry = bndryEnd := by
  unfold bndry
  rw [mkMarket_three, show (52 : ℕ) = 26 + 26 from rfl, List.replicate_add,
    runSteps_append, bndry_mid_eval]
  decide

/-! ### The claims -/

/-- C1, counterexample: in `crossState` exactly one matching pair exists
(agent 0 bids `0.31`, agent 1 asks `0.30`), yet a step in either visiting
order increments the volume counter by `2`, not `1`: the first trade moves
the seller's ask (or the buyer's bid) by one tick only, which still crosses
the counterparty's quote, so a second trade completes in the same step. -/
theorem C1_counterexample :
    matchPairs crossState = [(0, 1)] ∧
    (step [0, 1] crossState).volume = 2 ∧
    (step [1, 0] crossState).volume = 2 := by
  refine ⟨by decide, by decide, by decide⟩

/-- C1, amended: in a market step on a state whose books are canonically
sorted and duplicate-free and in which exactly one matching pair exists —
agent `A`'s standing bid at or above agent `B`'s standing ask, both entries
on the books at their current attribute values — the step increments the
volume counter by at least `1` (a trade is guaranteed), but not necessarily
by exactly `1`: the post-trade requotes can cross again within the step. -/
theorem C1_amended (m : MState) (A B : Nat) (order : List Nat)
    (hA : A ∈ order) (hAB : A ≠ B)
    (hone : matchPairs m = [(A, B)])
    (hinv : BookInv m)
    (hmb : (A, (agentAt m A).bid) ∈ m.bidders)
    (hma : (B, (agentAt m B).ask) ∈ m.askers)
    (hcross : (agentAt m B).ask ≤ (agentAt m A).bid) :
    1 ≤ (step order m).volume :=
  crossed_pair_step_volume order hAB hA hcross ⟨hinv, hmb, hma, rfl, rfl⟩

/-- C1, witness: the amended claim applied to `crossState` with the
visiting order `0, 1`. -/
theorem C1_witness : 1 ≤ (step [0, 1] crossState).volume :=
  C1_amended crossState 0 1 [0, 1] (by decide) (by decide) (by decide)
    (by unfold BookInv SortedAsc SortedDesc NodupKeys; decide)
    (by decide) (by decide) (by decide)

/-- C2, counterexample: in the two-agent market with beliefs `0.90` and
`0.10`, under the schedule that visits agent 0 then agent 1 every step, a
trade occurs at step 51 (volume `1`), so lifetime volume is not `0`. -/
theorem C2_counterexample :
    (runSteps (List.replicate 51 [0, 1]) (mkMarket [9/10, 1/10])).volume = 1 := by
  rw [mkMarket_two]
  decide

/-- C2, amended: for beliefs `0.90` and `0.10` trades do occur even though
the belief ranges are disjoint: under the schedule visiting agent 0 then
agent 1 each step, the first 50 steps trade nothing while agent 0's bid
rises and agent 1's ask falls by one tick per step until both quotes meet
at `0.50`, and step 51 completes a trade.  The high-belief agent's bid
range `[0, 0.89]` overlaps the low-belief agent's ask range `[0.11, 1]`,
so "asks always exceed opposing bids" fails. -/
theorem C2_amended :
    volTrace (List.replicate 51 [0, 1]) (mkMarket [9/10, 1/10]) =
      List.replicate 50 0 ++ [1] ∧
    (agentAt (runSteps (List.replicate 50 [0, 1]) (mkMarket [9/10, 1/10])) 0).bid = 50 ∧
    (agentAt (runSteps (List.replicate 50 [0, 1]) (mkMarket [9/10, 1/10])) 1).ask = 50 := by
  rw [mkMarket_two]
  refine ⟨by decide, by decide, by decide⟩

/-- C3, counterexample: a reachable state (three agents with beliefs
`0.90`, `0.50`, `0.10`, after 52 steps in visiting order `0, 1, 2`) in
which agent 1 has no entry in the bidders book at a step boundary: the
trade that consumed its entry did not restore it, and it stays absent
until agent 1 next requotes. -/
theorem C3_counterexample :
    Reach bndry ∧ bndry.agents.length = 3 ∧ 1 ∉ keys bndry.bidders := by
  refine ⟨reach_runSteps _ (Reach.init [9/10, 1/2, 1/10]), ?_, ?_⟩ <;>
    rw [bndry_eval] <;> decide

/-- C3, amended: in every reachable market state every agent has at most
one entry in each collection (the books never hold duplicate ids), and an
agent's own quote attempt restores its entry: after agent `i`'s buy attempt
on a nonempty askers book its bidders entry is present, and after its sell
attempt on a nonempty bidders book its askers entry is present.  An entry
removed by a trade, however, stays absent until the removed agent next
requotes, which can span other agents' actions and step boundaries. -/
theorem C3_amended :
    (∀ m : MState, Reach m → ∀ i : Nat,
      (keys m.bidders).count i ≤ 1 ∧ (keys m.askers).count i ≤ 1) ∧
    (∀ (i : Nat) (m : MState), m.askers ≠ [] → i ∈ keys (buy i m).bidders) ∧
    (∀ (i : Nat) (m : MState), m.bidders ≠ [] → i ∈ keys (sell i m).askers) := by
  refine ⟨?_, ?_, ?_⟩
  · intro m hm i
    rcases bookInv_reach hm with ⟨_, _, hnb, hna⟩
    exact ⟨List.nodup_iff_count_le_one.mp hnb i, List.nodup_iff_count_le_one.mp hna i⟩
  · intro i m hne
    exact mem_keys_bidders_buy i hne
  · intro i m hne
    exact mem_keys_askers_sell i hne

/-- C3, witness: the amended claim applied to the freshly constructed
market `mkt2` and agent 0. -/
theorem C3_witness :
    ((keys mkt2.bidders).count 0 ≤ 1 ∧ (keys mkt2.askers).count 0 ≤ 1) ∧
    0 ∈ keys (buy 0 mkt2).bidders ∧ 0 ∈ keys (sell 0 mkt2).askers :=
  ⟨C3_amended.1 mkt2 (mkMarket_two ▸ Reach.init [9/10, 1/10]) 0,
   C3_amended.2.1 0 mkt2 (by decide),
   C3_amended.2.2 0 mkt2 (by decide)⟩

/-- C4, counterexample: in the reachable state `bndry` the best-bid query
returns `0.48` although agent 1's current bid attribute is `0.49`: the
query reports the maximum over the entries still in the bidders book, not
over all agents, and agent 1's entry was consumed by a trade. -/
theorem C4_counterexample :
    Reach bndry ∧ (get_highest_bid bndry).1 = some 48 ∧
    (agentAt bndry 1).bid = 49 ∧ 1 < bndry.agents.length := by
  refine ⟨reach_runSteps _ (Reach.init [9/10, 1/2, 1/10]), ?_, ?_, ?_⟩ <;>
    rw [bndry_eval] <;> decide

/-- C4, amended: in every reachable market state the best-bid query
returns the maximum bid among the entries currently in the bidders book
(and the best-ask query the minimum among the askers entries) — which can
exclude an agent whose entry a trade consumed — or an absent result when
the collection is empty; and neither query changes the market state: the
internal pop-and-reinsert of the tail entry restores the book exactly. -/
theorem C4_amended (m : MState) (hm : Reach m) :
    ((get_highest_bid m).2 = m ∧ (get_lowest_ask m).2 = m) ∧
    ((get_highest_bid m).1 = none ↔ m.bidders = []) ∧
    ((get_lowest_ask m).1 = none ↔ m.askers = []) ∧
    (∀ q : ℤ, (get_highest_bid m).1 = some q →
      (∃ p ∈ m.bidders, p.2 = q) ∧ ∀ p ∈ m.bidders, p.2 ≤ q) ∧
    (∀ q : ℤ, (get_lowest_ask m).1 = some q →
      (∃ p ∈ m.askers, p.2 = q) ∧ ∀ p ∈ m.askers, q ≤ p.2) := by
  rcases bookInv_reach hm with ⟨hsb, hsa, hnb, hna⟩
  refine ⟨⟨get_highest_bid_state hnb, get_lowest_ask_state hna⟩,
    get_highest_bid_fst_none_iff m, get_lowest_ask_fst_none_iff m, ?_, ?_⟩
  · intro q hq
    exact get_highest_bid_fst_max hsb hq
  · intro q hq
    exact get_lowest_ask_fst_min hsa hq

/-- C4, witness: the amended claim applied to the freshly constructed
market `mkt2`: both queries leave the state unchanged. -/
theorem C4_witness :
    (get_highest_bid mkt2).2 = mkt2 ∧ (get_lowest_ask mkt2).2 = mkt2 :=
  (C4_amended mkt2 (mkMarket_two ▸ Reach.init [9/10, 1/10])).1

/-- C5: for every agent state and every reference price, `update_bid` with
`increase_bid` returns `min (bid + 0.01) (prob - 0.01)` and otherwise
`max (bid - 0.01) 0`; `update_ask` mirrors this with floor `prob + 0.01`
and ceiling `1` (all prices in hundredths). -/
theorem C5_theorem : ∀ (a : AgentSt) (r : ℤ),
    update_bid a r true = min (a.bid + 1) (a.prob - 1) ∧
    update_bid a r false = max (a.bid - 1) 0 ∧
    update_ask a r true = max (a.ask - 1) (a.prob + 1) ∧
    update_ask a r false = min (a.ask + 1) 100 :=
  fun a r => ⟨(update_bid_eq_min_max a r).1, (update_bid_eq_min_max a r).2,
    (update_ask_eq_min_max a r).1, (update_ask_eq_min_max a r).2⟩

/-- C6: every agent of a freshly constructed market quotes `bid = 0` and
`ask = 1`; the quote-range invariant `0 ≤ bid ≤ prob - 0.01` and
`prob + 0.01 ≤ ask ≤ 1` is preserved by every buy attempt, sell attempt
and market step, and holds in every reachable state. -/
theorem C6_theorem :
    (∀ ps : List ℚ, ∀ a ∈ (mkMarket ps).agents, a.bid = 0 ∧ a.ask = 100) ∧
    (∀ (i : Nat) (m : MState), AgentsInv m → AgentsInv (buy i m)) ∧
    (∀ (i : Nat) (m : MState), AgentsInv m → AgentsInv (sell i m)) ∧
    (∀ (order : List Nat) (m : MState), AgentsInv m → AgentsInv (step order m)) ∧
    (∀ m : MState, Reach m → AgentsInv m) := by
  refine ⟨?_, ?_, ?_, ?_, ?_⟩
  · intro ps a ha
    rcases List.mem_map.mp ha with ⟨p, _, rfl⟩
    exact ⟨rfl, rfl⟩
  · intro i m h
    exact agentsInv_buy i h
  · intro i m h
    exact agentsInv_sell i h
  · intro order m h
    exact agentsInv_step order h
  · intro m hm
    exact agentsInv_reach hm

/-- C6, witness: the invariant at a freshly constructed market and after a
buy attempt on `mkt2`. -/
theorem C6_witness : AgentsInv (mkMarket [1/2]) ∧ AgentsInv (buy 0 mkt2) :=
  ⟨C6_theorem.2.2.2.2 _ (Reach.init [1/2]), C6_theorem.2.1 0 mkt2 (by unfold AgentsInv AgentInv; decide)⟩

/-- C7: for every rational input belief, the stored belief is an integer
number of hundredths in `[1, 99]` (the `0.01` price grid); inputs at or
above `1` become `0.99`, inputs at or below `0` become `0.01`, and inputs
whose rounding lies strictly inside the grid are stored as the rounded
value. -/
theorem C7_theorem : ∀ p : ℚ,
    (1 ≤ clampProb p ∧ clampProb p ≤ 99) ∧
    (1 ≤ p → clampProb p = 99) ∧
    (p ≤ 0 → clampProb p = 1) ∧
    (0 < round (100 * p) → round (100 * p) < 100 → clampProb p = round (100 * p)) :=
  fun p => ⟨clampProb_bounds p, fun h => clampProb_of_one_le h,
    fun h => clampProb_of_nonpos h, fun h1 h2 => clampProb_of_between h1 h2⟩

/-- C7, witness: the clamp evaluated at `2`, `-1` and `1/2`. -/
theorem C7_witness :
    (1 ≤ clampProb 2 ∧ clampProb 2 ≤ 99) ∧ clampProb 2 = 99 ∧
    clampProb (-1) = 1 ∧ clampProb (1/2) = round ((100 : ℚ) * (1/2)) :=
  ⟨(C7_theorem 2).1, (C7_theorem 2).2.1 (by norm_num),
   (C7_theorem (-1)).2.2.1 (by norm_num),
   (C7_theorem (1/2)).2.2.2 (by norm_num [round_eq]) (by norm_num [round_eq])⟩

/-- C8: a market constructed with zero agents is a fixed point of the
step: every step leaves it unchanged (and cannot fail, as the checked
step shows), the best-bid and best-ask queries report absent, and the
volume is `0` after every step. -/
theorem C8_theorem : ∀ n : ℕ,
    runSteps (List.replicate n []) (mkMarket []) = mkMarket [] ∧
    (get_highest_bid (runSteps (List.replicate n []) (mkMarket []))).1 = none ∧
    (get_lowest_ask (runSteps (List.replicate n []) (mkMarket []))).1 = none ∧
    (runSteps (List.replicate n []) (mkMarket [])).volume = 0 ∧
    stepChecked [] (runSteps (List.replicate n []) (mkMarket [])) =
      some (step [] (runSteps (List.replicate n []) (mkMarket []))) := by
  intro n
  rw [runSteps_replicate_nil n]
  exact ⟨rfl, rfl, rfl, rfl, rfl⟩

/-- C9: the unguarded removal of the best entry inside the buy and sell
attempts never executes on an empty collection: the checked semantics, in
which that removal (and the best-quote read) fail explicitly, always
succeeds and agrees with the total semantics, for every agent and every
market state. -/
theorem C9_theorem : ∀ (i : Nat) (m : MState),
    buyChecked i m = some (buy i m) ∧ sellChecked i m = some (sell i m) :=
  fun i m => ⟨buyChecked_eq_some_buy i m, sellChecked_eq_some_sell i m⟩

/-- C10: the results of `update_bid` and `update_ask` are independent of
the reference-price argument: the new quote depends only on the agent's
own current quote and belief. -/
theorem C10_theorem : ∀ (a : AgentSt) (r1 r2 : ℤ) (f : Bool),
    update_bid a r1 f = update_bid a r2 f ∧ update_ask a r1 f = update_ask a r2 f :=
  fun _ _ _ _ => ⟨rfl, rfl⟩

end PredictionMarkets
